import Mathlib

/-!
Verification of the doraemon incremental import-graph pipeline.

The definitions below are a shallow embedding of the TypeScript source:
  * `services/graph-service/src/services/graph.service.ts` (Neo4j-backed
    graph store: Cypher mutations and the recursive-dependents query),
  * `services/analysis-engine/src/services/git.service.ts` (diff parsing),
  * the analysis-engine parser service (`performIncrementalUpdate`,
    `performFullAnalysis`),
  * the analysis-engine redis consumer (`getNextJob`) and the job handler
    (`handleAnalysisJob`),
  * the ingester (`validateSecret`, `handleTriggerRequest`).

External collaborators (GitHub, git, Redis transport, the ts-morph
extractor, the URL parser) are modelled as oracle inputs; everything the
repository's own code computes is translated directly.
-/

/-! ## JavaScript string primitives

The TypeScript code uses `split`, `trim`, `charAt`, `substring`,
`lastIndexOf`, `startsWith`, `includes` and `replace(/\.git$/,'')`.
We model strings via their character lists so that every operation is
structural and kernel-reducible. -/

/-- `s.split(sep)` for a one-character separator, on character lists.
Mirrors JavaScript `String.prototype.split`: `"a,,b" → ["a","","b"]`,
`"" → [""]`. -/
def splitChar (sep : Char) : List Char → List (List Char)
  | [] => [[]]
  | c :: rest =>
    match splitChar sep rest with
    | [] => [[]]
    | g :: gs => if c = sep then [] :: g :: gs else (c :: g) :: gs

/-- `s.split(sep)` on `String`, via `splitChar`. -/
def jsSplit (sep : Char) (s : String) : List String :=
  (splitChar sep s.toList).map (fun l => String.mk l)

/-- JavaScript `String.prototype.trim`: strip whitespace at both ends. -/
def trimChars (l : List Char) : List Char :=
  ((l.dropWhile Char.isWhitespace).reverse.dropWhile Char.isWhitespace).reverse

/-- JavaScript `s.trim()` on `String`. -/
def jsTrim (s : String) : String := String.mk (trimChars s.toList)

/-- JavaScript `s.substring(n)`. -/
def jsSubstringFrom (n : Nat) (s : String) : String := String.mk (s.toList.drop n)

/-- JavaScript `s.charAt(0)`: one-character string, or `""` when empty. -/
def jsCharAt0 (s : String) : String := String.mk (s.toList.take 1)

/-- JavaScript `s.includes(c)` for a single character. -/
def jsIncludesChar (c : Char) (s : String) : Bool := s.toList.contains c

/-- `s.substring(s.lastIndexOf(c) + 1)`: the characters after the last
occurrence of `c` (the whole string when `c` is absent). -/
def afterLastChar (c : Char) (s : String) : String :=
  String.mk ((s.toList.reverse.takeWhile (fun x => x ≠ c)).reverse)

/-- JavaScript `s.replace(/\.git$/, '')`: drop one trailing `".git"`. -/
def stripGitSuffix (s : String) : String :=
  if s.toList.reverse.take 4 = ['t', 'i', 'g', '.'] then
    String.mk ((s.toList.reverse.drop 4).reverse)
  else s

/-- JavaScript `Set.prototype.add` on an insertion-ordered list:
append the element unless it is already present. -/
def jsSetAdd (l : List String) (x : String) : List String :=
  if x ∈ l then l else l ++ [x]

/-! ## Graph store data model (Neo4j)

A `File` node is identified by the composite key `(repo, id)` where `id`
is the repository-relative path (`graph.service.ts` merges on
`{id: $filePath, repo: $repoName}`). `IMPORTS` relationships connect two
such nodes. -/

/-- Composite node identity `(repo, path)`. -/
abbrev NodeKey := String × String

/-- The stored graph as seen by the read queries: the `:File` nodes and
the `IMPORTS` relationships between them. -/
structure GraphDB where
  nodes : List NodeKey
  edges : List (NodeKey × NodeKey)

/-- Bounded-depth reachability along `IMPORTS` edges: `reachesFuel E n a b`
is true when some walk of at most `n` edges leads from `a` to `b`. -/
def reachesFuel (E : List (NodeKey × NodeKey)) : Nat → NodeKey → NodeKey → Bool
  | 0, a, b => decide (a = b)
  | n + 1, a, b =>
    decide (a = b) || E.any (fun e => decide (e.1 = a) && reachesFuel E n e.2 b)

/-- Reachability along `IMPORTS` edges (zero or more hops). -/
def Reaches (E : List (NodeKey × NodeKey)) (a b : NodeKey) : Prop :=
  Relation.ReflTransGen (fun x y => (x, y) ∈ E) a b

/-- A walk recorded by the list of nodes visited after the start. -/
inductive WalkL (E : List (NodeKey × NodeKey)) : NodeKey → NodeKey → List NodeKey → Prop
  | nil (a : NodeKey) : WalkL E a a []
  | cons {a c b : NodeKey} {l : List NodeKey} :
      (a, c) ∈ E → WalkL E c b l → WalkL E a b (c :: l)

theorem reachesFuel_sound {E : List (NodeKey × NodeKey)} :
    ∀ {n : Nat} {a b : NodeKey}, reachesFuel E n a b = true → Reaches E a b := by
  intro n
  induction n with
  | zero =>
    intro a b h
    simp only [reachesFuel, decide_eq_true_eq] at h
    exact h ▸ Relation.ReflTransGen.refl
  | succ n ih =>
    intro a b h
    simp only [reachesFuel, Bool.or_eq_true, decide_eq_true_eq, List.any_eq_true,
      Bool.and_eq_true] at h
    rcases h with h | ⟨e, he, h1, h2⟩
    · exact h ▸ Relation.ReflTransGen.refl
    · exact Relation.ReflTransGen.head (h1 ▸ he) (ih h2)

theorem reachesFuel_succ {E : List (NodeKey × NodeKey)} {n : Nat} {a b : NodeKey}
    (h : reachesFuel E n a b = true) : reachesFuel E (n + 1) a b = true := by
  induction n generalizing a with
  | zero =>
    simp only [reachesFuel, decide_eq_true_eq] at h
    simp [reachesFuel, h]
  | succ n ih =>
    simp only [reachesFuel, Bool.or_eq_true, decide_eq_true_eq, List.any_eq_true,
      Bool.and_eq_true] at h ⊢
    rcases h with h | ⟨e, he, h1, h2⟩
    · exact Or.inl h
    · have h3 := ih h2
      simp only [reachesFuel, Bool.or_eq_true, decide_eq_true_eq, List.any_eq_true,
        Bool.and_eq_true] at h3
      exact Or.inr ⟨e, he, h1, h3⟩

theorem reachesFuel_mono {E : List (NodeKey × NodeKey)} {m n : Nat} {a b : NodeKey}
    (hmn : m ≤ n) (h : reachesFuel E m a b = true) : reachesFuel E n a b = true := by
  induction hmn with
  | refl => exact h
  | step _ ih => exact reachesFuel_succ ih

theorem WalkL.to_reachesFuel {E : List (NodeKey × NodeKey)} {a b : NodeKey}
    {l : List NodeKey} (w : WalkL E a b l) : reachesFuel E l.length a b = true := by
  induction w with
  | nil a => simp [reachesFuel]
  | cons he _ ih =>
    simp only [List.length_cons, reachesFuel, Bool.or_eq_true, List.any_eq_true,
      Bool.and_eq_true, decide_eq_true_eq]
    exact Or.inr ⟨_, he, rfl, ih⟩

theorem Reaches.to_walkL {E : List (NodeKey × NodeKey)} {a b : NodeKey}
    (h : Reaches E a b) : ∃ l, WalkL E a b l := by
  induction h using Relation.ReflTransGen.head_induction_on with
  | refl => exact ⟨[], WalkL.nil b⟩
  | head hstep _ ih =>
    obtain ⟨l, w⟩ := ih
    exact ⟨_ :: l, WalkL.cons hstep w⟩

theorem WalkL.append {E : List (NodeKey × NodeKey)} {a c b : NodeKey}
    {u v : List NodeKey} (w1 : WalkL E a c u) (w2 : WalkL E c b v) :
    WalkL E a b (u ++ v) := by
  induction w1 with
  | nil => exact w2
  | cons he _ ih => exact WalkL.cons he (ih w2)

theorem WalkL.split {E : List (NodeKey × NodeKey)} {a b x : NodeKey} :
    ∀ (l₁ : List NodeKey) {l₂ : List NodeKey}, WalkL E a b (l₁ ++ x :: l₂) →
      WalkL E a x (l₁ ++ [x]) ∧ WalkL E x b l₂ := by
  intro l₁
  induction l₁ generalizing a with
  | nil =>
    intro l₂ w
    cases w with
    | cons he w' => exact ⟨WalkL.cons he (WalkL.nil x), w'⟩
  | cons c l₁ ih =>
    intro l₂ w
    cases w with
    | cons he w' =>
      obtain ⟨w1, w2⟩ := ih w'
      exact ⟨WalkL.cons he w1, w2⟩

theorem pair_sublist_split {x : NodeKey} :
    ∀ {l : List NodeKey}, List.Sublist [x, x] l →
      ∃ l₁ l₂ l₃, l = l₁ ++ x :: (l₂ ++ x :: l₃) := by
  intro l
  induction l with
  | nil => intro h; exact absurd h (by simp)
  | cons c t ih =>
    intro h
    cases h with
    | cons _ h' =>
      obtain ⟨l₁, l₂, l₃, rfl⟩ := ih h'
      exact ⟨c :: l₁, l₂, l₃, rfl⟩
    | cons₂ _ h' =>
      have hx : x ∈ t := List.singleton_sublist.mp h'
      obtain ⟨s, u, rfl⟩ := List.append_of_mem hx
      exact ⟨[], s, u, rfl⟩

theorem WalkL.shorten {E : List (NodeKey × NodeKey)} {a b : NodeKey} :
    ∀ (n : Nat) (l : List NodeKey), l.length ≤ n → WalkL E a b l →
      ∃ l', WalkL E a b l' ∧ l'.Nodup ∧ l' ⊆ l := by
  intro n
  induction n with
  | zero =>
    intro l hl w
    have : l = [] := List.length_eq_zero.mp (Nat.le_zero.mp hl)
    exact ⟨l, w, by simp [this], fun _ h => h⟩
  | succ n ih =>
    intro l hl w
    by_cases hnd : l.Nodup
    · exact ⟨l, w, hnd, fun _ h => h⟩
    · obtain ⟨x, hx⟩ : ∃ x : NodeKey, List.Sublist [x, x] l := by
        by_contra hcon
        push_neg at hcon
        exact hnd (List.nodup_iff_sublist.mpr hcon)
      obtain ⟨l₁, l₂, l₃, rfl⟩ := pair_sublist_split hx
      obtain ⟨w1, w2⟩ := WalkL.split l₁ w
      obtain ⟨_, w3⟩ := WalkL.split l₂ w2
      have wshort : WalkL E a b ((l₁ ++ [x]) ++ l₃) := WalkL.append w1 w3
      have hlen : ((l₁ ++ [x]) ++ l₃).length ≤ n := by
        simp only [List.length_append, List.length_cons, List.length_singleton,
          List.length_nil] at hl ⊢
        omega
      obtain ⟨l', w', hnd', hsub'⟩ := ih _ hlen wshort
      refine ⟨l', w', hnd', fun y hy => ?_⟩
      have := hsub' hy
      simp only [List.mem_append, List.mem_singleton, List.mem_cons] at this ⊢
      tauto

theorem WalkL.mem_targets {E : List (NodeKey × NodeKey)} {a b : NodeKey}
    {l : List NodeKey} (w : WalkL E a b l) :
    ∀ x ∈ l, x ∈ E.map Prod.snd := by
  induction w with
  | nil => simp
  | cons he _ ih =>
    intro x hx
    rcases List.mem_cons.mp hx with rfl | hx'
    · exact List.mem_map.mpr ⟨_, he, rfl⟩
    · exact ih x hx'

theorem nodup_subset_length_le {l l' : List NodeKey}
    (hnd : l.Nodup) (hsub : l ⊆ l') : l.length ≤ l'.length := by
  calc l.length = l.toFinset.card := (List.toFinset_card_of_nodup hnd).symm
    _ ≤ l'.toFinset.card := Finset.card_le_card (fun x hx => by
        simp only [List.mem_toFinset] at hx ⊢
        exact hsub hx)
    _ ≤ l'.length := l'.toFinset_card_le

/-- Adequacy of the fuel bound: reachability coincides with bounded search
at fuel `E.length`. -/
theorem reaches_iff_fuel {E : List (NodeKey × NodeKey)} {a b : NodeKey} :
    Reaches E a b ↔ reachesFuel E E.length a b = true := by
  constructor
  · intro h
    obtain ⟨l, w⟩ := Reaches.to_walkL h
    obtain ⟨l', w', hnd, hsub⟩ := WalkL.shorten l.length l (le_refl _) w
    have hsub2 : l' ⊆ E.map Prod.snd := fun x hx => WalkL.mem_targets w x (hsub hx)
    have hlen : l'.length ≤ E.length := by
      have := nodup_subset_length_le hnd hsub2
      simpa using this
    exact reachesFuel_mono hlen (WalkL.to_reachesFuel w')
  · exact reachesFuel_sound

/-- `findRecursiveDependents` from `graph.service.ts`:

`MATCH (dependent:File)-[:IMPORTS*]->(:File {id: $filePath, repo: $repoName})
 RETURN DISTINCT dependent.id AS id, dependent.name AS label`

A Cypher variable-length pattern `-[:IMPORTS*]->` matches paths of one or
more relationships, with the relationships of a single path pairwise
distinct; `dependent` may bind any node with such a path to the target,
including the target node itself when it lies on a cycle. A
relationship-distinct path of length ≥ 1 from `d` to `t` exists exactly
when `d` has an outgoing edge to some `s` from which `t` is reachable
(a vertex-simple path from `s` to `t` never reuses the first edge).
`DISTINCT` deduplicates the returned rows. -/
def findRecursiveDependents (g : GraphDB) (repoName filePath : String) :
    List NodeKey :=
  if (repoName, filePath) ∈ g.nodes then
    g.nodes.dedup.filter (fun d =>
      g.edges.any (fun e =>
        decide (e.1 = d) && reachesFuel g.edges g.edges.length e.2 (repoName, filePath)))
  else []

/-! ## Graph store mutations (`graph.service.ts`)

The five mutation operations, as issued by the analysis engine through
the graph-service internal API. `Store` is the abstract database state:
file nodes keyed by `(repo, path)` carrying an optional `name` property
(a node merged as the source of an edge has no `name` until a later
upsert sets one), `IMPORTS` relationships keyed by
`(repo, fromPath, toPath)`, and `Repository` nodes keyed by name carrying
`lastAnalyzedSha`. -/

/-- A graph-store mutation, one constructor per internal API call. -/
inductive GraphOp where
  | upsertFile (repo p name : String)
  | deleteFile (repo p : String)
  | upsertEdge (repo fromP toP toName : String)
  | deleteOutgoingEdges (repo p : String)
  | setLastAnalyzedSha (repo sha : String)
deriving DecidableEq, Repr

/-- Abstract store state. `fileRec r p = none` means no node; `some name?`
means the node exists with optional `name` property. -/
structure Store where
  fileRec : String → String → Option (Option String)
  edgeRel : String → String → String → Bool
  repoSha : String → Option String

theorem Store.ext' {s t : Store} (h1 : s.fileRec = t.fileRec)
    (h2 : s.edgeRel = t.edgeRel) (h3 : s.repoSha = t.repoSha) : s = t := by
  cases s; cases t; simp_all

/-- Semantics of one mutation, following the Cypher statements:

* `upsertFile`: `MERGE (f:File {id, repo}) SET f.name = $fileName`
* `deleteFile`: `MATCH (f:File {id, repo}) DETACH DELETE f`
* `upsertEdge`: `MERGE (source:File {id: $from, repo})
   MERGE (target:File {id: $to, repo}) SET target.name = $toName
   MERGE (source)-[:IMPORTS]->(target)`
* `deleteOutgoingEdges`: `MATCH (f:File {id, repo})-[r:IMPORTS]->() DELETE r`
* `setLastAnalyzedSha`: `MERGE (r:Repository {name}) SET r.lastAnalyzedSha = $sha`
-/
def applyMutation (s : Store) : GraphOp → Store
  | .upsertFile repo p name =>
    { s with fileRec := fun r q =>
        if r = repo ∧ q = p then some (some name) else s.fileRec r q }
  | .deleteFile repo p =>
    { s with
      fileRec := fun r q =>
        if r = repo ∧ q = p then none else s.fileRec r q,
      edgeRel := fun r f t =>
        if r = repo ∧ (f = p ∨ t = p) then false else s.edgeRel r f t }
  | .upsertEdge repo fp tp toName =>
    { s with
      fileRec := fun r q =>
        if r = repo ∧ q = tp then some (some toName)
        else if r = repo ∧ q = fp then some ((s.fileRec r q).getD none)
        else s.fileRec r q,
      edgeRel := fun r f t =>
        if r = repo ∧ f = fp ∧ t = tp then true else s.edgeRel r f t }
  | .deleteOutgoingEdges repo p =>
    { s with edgeRel := fun r f t =>
        if r = repo ∧ f = p then false else s.edgeRel r f t }
  | .setLastAnalyzedSha repo sha =>
    { s with repoSha := fun r =>
        if r = repo then some sha else s.repoSha r }

/-! ## Diff parsing (`git.service.ts`, `getDiff`)

`git diff --name-status old new` output is split into lines; each line is
split on tabs into `[status, filePath]`; lines with both fields nonempty
yield `{status: status.trim().charAt(0), path: filePath.trim()}` and the
rest are skipped. A rename line `R100\told\tnew` therefore yields
`{status: "R", path: "old"}` — its third field (the new path) is
discarded by the destructuring. -/

/-- One record of `getDiff`'s result. -/
structure DiffEntry where
  status : String
  path : String
deriving DecidableEq, Repr

/-- Parse one diff line, as in the `.map` body of `getDiff`. -/
def parseDiffLine (line : String) : Option DiffEntry :=
  let parts := jsSplit '\t' line
  let status := parts.getD 0 ""
  let filePath := parts.getD 1 ""
  if status ≠ "" ∧ filePath ≠ "" then
    some ⟨jsCharAt0 (jsTrim status), jsTrim filePath⟩
  else none

/-- `getDiff`: split the raw diff output into lines, drop empty lines,
parse each line, drop unparseable lines. -/
def getDiff (diffOutput : String) : List DiffEntry :=
  ((jsSplit '\n' diffOutput).filter (fun l => l ≠ "")).filterMap parseDiffLine

/-! ## Parser service (`performIncrementalUpdate`, `performFullAnalysis`)

The extractor (ts-morph) is an external collaborator: `imports p` is the
list of repository-relative paths of the in-repo, non-`node_modules`
targets of imports that the extractor resolves for file `p`. `basename`
is Node's `path.basename`. -/

/-- Node `path.basename`: the characters after the last `/`. -/
def basename (p : String) : String := afterLastChar '/' p

/-- `processFile`: upsert the file node, then one `upsertEdge` per
resolved in-repo import target. -/
def processFileOps (repoName p : String) (imports : String → List String) :
    List GraphOp :=
  GraphOp.upsertFile repoName p (basename p) ::
    (imports p).map (fun imp => GraphOp.upsertEdge repoName p imp (basename imp))

/-- `handleAddedFile`: process the file. -/
def handleAddedFileOps (repoName p : String) (imports : String → List String) :
    List GraphOp :=
  processFileOps repoName p imports

/-- `handleModifiedFile`: clear old outgoing edges, then re-process. -/
def handleModifiedFileOps (repoName p : String) (imports : String → List String) :
    List GraphOp :=
  GraphOp.deleteOutgoingEdges repoName p :: processFileOps repoName p imports

/-- `performIncrementalUpdate`: after checkout, first await every
`deleteFile` for the `D` entries (`Promise.all(deletionPromises)`), then
await the added/modified updates (`Promise.all(updatePromises)`). The
graph operations are listed in issue order; the second batch is only
created after the first one has completed. -/
def performIncrementalUpdate (repoName : String) (imports : String → List String)
    (diff : List DiffEntry) : List GraphOp :=
  ((diff.filter (fun c => decide (c.status = "D"))).map
      (fun c => GraphOp.deleteFile repoName c.path))
    ++ ((diff.filter (fun c => decide (c.status = "A") || decide (c.status = "M"))).flatMap
      (fun c =>
        if c.status = "A" then handleAddedFileOps repoName c.path imports
        else handleModifiedFileOps repoName c.path imports))

/-- `performFullAnalysis`: process every enumerated source file (the list
is already restricted to in-repo, non-`node_modules` files). -/
def performFullAnalysis (repoName : String) (files : List String)
    (imports : String → List String) : List GraphOp :=
  files.flatMap (fun p => processFileOps repoName p imports)

/-! ## Dispatch messages and effects

`publishDispatchJob` appends a result record to the dispatch stream;
`acknowledgeJob` XACKs an analysis-stream message. We record the calls
the analysis engine makes, in program order. -/

/-- A dispatch-stream result record (`{repoName, sha, status,
affectedFiles, error?}`). -/
structure DispatchMsg where
  repoName : String
  sha : String
  status : String
  affectedFiles : List String
  error : Option String
deriving DecidableEq, Repr

/-- An observable call made while processing a job. -/
inductive Effect where
  | publish (m : DispatchMsg)
  | ack (jobId : String)
  | graphOp (op : GraphOp)
deriving DecidableEq, Repr

/-- Number of dispatch publications in a trace. -/
def countPublishes (t : List Effect) : Nat :=
  (t.filter (fun e => match e with | .publish _ => true | _ => false)).length

/-- The graph mutations of a trace, in order. -/
def graphOpsOf (t : List Effect) : List GraphOp :=
  t.filterMap (fun e => match e with | .graphOp op => some op | _ => none)

/-- Folding the trace's mutations over a store state. -/
def applyOps (s : Store) (ops : List GraphOp) : Store :=
  ops.foldl applyMutation s

/-! ## Stream consumer (`redis.ts`, `getNextJob`)

A delivered stream message carries field/value pairs; the job payload is
the JSON string under the field `payload`. JSON parsing is external:
`jsonOk p = false` models `JSON.parse` throwing on `p`. -/

/-- One delivered stream message. -/
structure StreamMessage where
  id : String
  fields : List (String × String)

/-- `getNextJob` on one delivered message: a missing (or empty, hence
falsy) `payload` field, or a payload that fails to parse, is acknowledged
immediately and yields no job; otherwise the message id and payload are
returned and nothing is acknowledged yet. -/
def getNextJob (jsonOk : String → Bool) (msg : StreamMessage) :
    List Effect × Option (String × String) :=
  match msg.fields.lookup "payload" with
  | none => ([Effect.ack msg.id], none)
  | some p =>
    if p = "" then ([Effect.ack msg.id], none)
    else if jsonOk p then ([], some (msg.id, p))
    else ([Effect.ack msg.id], none)

/-! ## Job handler (`job.handler.ts`, `handleAnalysisJob`)

External calls are oracles collected in `JobEnv`:

* `parsedPathname`: `new URL(repoUrl).pathname`, `none` when the `URL`
  constructor throws;
* `remoteSha`: `getLatestCommitSha` (returns `null` on GitHub errors);
* `localSha`: `fetchLastAnalyzedSha` (`.error` = request threw, `.ok
  none` = 404 → `null`);
* `repoAvailable`: whether `getRepo` finds the local mirror (it throws
  otherwise);
* `diffResult`: `getDiff`'s records, or `.error` when git diff throws;
* `checkoutOk`: whether `git.checkout(newSha)` inside
  `performIncrementalUpdate` succeeds (its first fallible step);
* `imports`: the extractor's resolved in-repo imports per file;
* `cloneOk` / `fullOk`: `performInitialClone` and the fallible prelude of
  `performFullAnalysis`;
* `fullFiles`: the source files enumerated by the full analysis;
* `updateShaOk`: whether `updateLastAnalyzedSha` succeeds;
* `dependents`: `findRecursiveDependents` per changed file, `none` when
  that query rejects. -/

/-- A node returned by the graph service (`{id, label}`). -/
structure GNode where
  id : String
  label : String
deriving DecidableEq, Repr

/-- Oracle results for the external calls of one job. -/
structure JobEnv where
  parsedPathname : Option String
  remoteSha : Option String
  localSha : Except Unit (Option String)
  repoAvailable : Bool
  diffResult : Except Unit (List DiffEntry)
  checkoutOk : Bool
  imports : String → List String
  cloneOk : Bool
  fullOk : Bool
  fullFiles : List String
  updateShaOk : Bool
  dependents : String → Option (List GNode)

/-- The analysis job payload (`AnalysisJobPayload`). `repoUrl` is `none`
when the field is absent from the parsed JSON. -/
structure AnalysisJobPayload where
  repoUrl : Option String
  sha : String
  event : String
  prNumber : Option Int
  receivedAt : String

/-- Best-effort repo name used by the failure dispatch:
`payload.repoUrl.includes('/') ?
 payload.repoUrl.substring(payload.repoUrl.lastIndexOf('/') + 1)
   .replace(/\.git$/, '') : 'unknown'`. -/
def failRepoName (repoUrl : String) : String :=
  if jsIncludesChar '/' repoUrl then stripGitSuffix (afterLastChar '/' repoUrl)
  else "unknown"

/-- The `catch` block: publish a failure record (sha `"unknown"`), then
acknowledge the job. -/
def failureEffects (jobId repoUrl errMsg : String) : List Effect :=
  [Effect.publish ⟨failRepoName repoUrl, "unknown", "failure", [], some errMsg⟩,
   Effect.ack jobId]

/-- Blast radius: `new Set(directlyChangedFiles)`, then for each changed
file the ids of its recursive dependents (an empty contribution when the
query rejected), added in order. -/
def blastRadius (dependents : String → Option (List GNode))
    (directlyChanged : List String) : List String :=
  if directlyChanged.isEmpty then directlyChanged.foldl jsSetAdd []
  else
    ((directlyChanged.map (fun p => (dependents p).getD [])).flatten.map GNode.id).foldl
      jsSetAdd (directlyChanged.foldl jsSetAdd [])

/-- Steps 4–6 of the handler: `updateLastAnalyzedSha`, blast radius,
publish success. -/
def finishAnalysis (env : JobEnv) (jobId repoUrl repoName remoteSha : String)
    (directlyChanged : List String) : List Effect :=
  if env.updateShaOk then
    Effect.graphOp (GraphOp.setLastAnalyzedSha repoName remoteSha) ::
      [Effect.publish ⟨repoName, remoteSha, "success",
        blastRadius env.dependents directlyChanged, none⟩]
  else failureEffects jobId repoUrl "update sha failed"

/-- `handleAnalysisJob`, as the ordered list of calls it makes. Every
`throw` inside the `try` transfers control to the `catch` block
(`failureEffects`). -/
def handleAnalysisJob (env : JobEnv) (jobId : String)
    (payload : AnalysisJobPayload) : List Effect :=
  match payload.repoUrl with
  | none => [Effect.ack jobId]
  | some repoUrl =>
    if repoUrl = "" then [Effect.ack jobId]
    else
      match env.parsedPathname with
      | none => failureEffects jobId repoUrl "invalid url"
      | some pathname =>
        let repoName := stripGitSuffix (jsSubstringFrom 1 pathname)
        let parts := jsSplit '/' repoName
        let owner := parts.getD 0 ""
        let repo := parts.getD 1 ""
        if owner = "" ∨ repo = "" then
          failureEffects jobId repoUrl
            ("Could not parse owner/repo from " ++ repoName)
        else
          match env.remoteSha with
          | none => failureEffects jobId repoUrl "Failed to get remote SHA from GitHub."
          | some remoteSha =>
            match env.localSha with
            | .error _ => failureEffects jobId repoUrl "failed to fetch last analyzed sha"
            | .ok localShaOpt =>
              let localTruthy := localShaOpt.getD "" ≠ ""
              if localTruthy ∧ localShaOpt = some remoteSha then
                [Effect.publish ⟨repoName, remoteSha, "no-change", [], none⟩]
              else if localTruthy then
                -- incremental update
                if ¬env.repoAvailable then
                  failureEffects jobId repoUrl "Repository not found locally."
                else
                  match env.diffResult with
                  | .error _ => failureEffects jobId repoUrl "Failed to get git diff"
                  | .ok diff =>
                    if diff.isEmpty then
                      finishAnalysis env jobId repoUrl repoName remoteSha []
                    else if ¬env.checkoutOk then
                      failureEffects jobId repoUrl "checkout failed"
                    else
                      ((performIncrementalUpdate repoName env.imports diff).map
                          Effect.graphOp)
                        ++ finishAnalysis env jobId repoUrl repoName remoteSha
                          ((diff.filter (fun f =>
                              decide (f.status = "A") || decide (f.status = "M"))).map
                            DiffEntry.path)
              else
                -- first-time full analysis
                if ¬env.cloneOk then
                  failureEffects jobId repoUrl "clone failed"
                else if ¬env.fullOk then
                  failureEffects jobId repoUrl "full analysis failed"
                else
                  ((performFullAnalysis repoName env.fullFiles env.imports).map
                      Effect.graphOp)
                    ++ finishAnalysis env jobId repoUrl repoName remoteSha []

/-! ## Ingester (`auth.ts` + `trigger.ts`)

`POST /trigger` runs `validateSecret` and then `handleTriggerRequest`.
The Redis publish is an oracle: `pub = some msgId` means
`publishAnalysisJob` returned that message id, `none` means it threw. -/

/-- An incoming trigger request: the `Authorization` header and the JSON
body fields (absent fields are `none`). -/
structure TriggerRequest where
  authHeader : Option String
  repoUrl : Option String
  sha : Option String
  event : Option String
  prNumber : Option Int

/-- JavaScript truthiness of an optional string field (`undefined` and
`""` are falsy). -/
def truthyField (o : Option String) : Bool := (o.getD "") ≠ ""

/-- The characters of `'Bearer '`. -/
def bearerChars : List Char := ['B', 'e', 'a', 'r', 'e', 'r', ' ']

/-- The payload built by `handleTriggerRequest` (`prNumber || null` maps
a falsy `prNumber` — absent or `0` — to `null`). -/
structure PublishedJob where
  repoUrl : String
  sha : String
  event : String
  prNumber : Option Int
  receivedAt : String
deriving DecidableEq, Repr

/-- The composed `/trigger` pipeline: `validateSecret` (500 when the
secret is unconfigured, 401 on a missing or non-`Bearer ` header, 403 on
a wrong token) then `handleTriggerRequest` (400 on missing body fields,
202 with the assigned job id on success, 500 when the publish throws).
The second component is the job published to the analysis stream. -/
def ingesterRespond (ingesterSecret : String) (pub : Option String)
    (now : String) (req : TriggerRequest) :
    Nat × Option (String × PublishedJob) :=
  if ingesterSecret = "" then (500, none)
  else
    match req.authHeader with
    | none => (401, none)
    | some h =>
      if ¬ List.isPrefixOf bearerChars h.toList then (401, none)
      else if String.mk (h.toList.drop 7) ≠ ingesterSecret then (403, none)
      else if ¬ truthyField req.repoUrl ∨ ¬ truthyField req.sha
          ∨ ¬ truthyField req.event then (400, none)
      else
        let jobPayload : PublishedJob :=
          { repoUrl := req.repoUrl.getD "",
            sha := req.sha.getD "",
            event := req.event.getD "",
            prNumber := match req.prNumber with
              | some n => if n = 0 then none else some n
              | none => none,
            receivedAt := now }
        match pub with
        | some msgId => (202, some (msgId, jobPayload))
        | none => (500, none)

/-! ## Claim C1 -/

/-- A repository whose two files import each other (`a.ts ↔ b.ts`). -/
def cycleGraphDB : GraphDB :=
  { nodes := [("acme/widget", "a.ts"), ("acme/widget", "b.ts")],
    edges := [(("acme/widget", "a.ts"), ("acme/widget", "b.ts")),
              (("acme/widget", "b.ts"), ("acme/widget", "a.ts"))] }

/-- C1, counterexample: on the mutual-import cycle `a.ts ↔ b.ts`, the
recursive-dependents query for `a.ts` returns both files — `a.ts` itself
included, because `a.ts` has an `IMPORTS` path of length two back to
itself — and not `{b.ts}` as the claim states. -/
theorem c1_counterexample :
    findRecursiveDependents cycleGraphDB "acme/widget" "a.ts"
        = [("acme/widget", "a.ts"), ("acme/widget", "b.ts")] ∧
      ("acme/widget", "a.ts") ∈
        findRecursiveDependents cycleGraphDB "acme/widget" "a.ts" := by
  decide

/-- C1, amended: `findRecursiveDependents repo path` terminates and
returns, without duplicates, exactly the File nodes having at least one
outgoing `IMPORTS` edge into a node from which `path` is reachable —
i.e. the files with an `IMPORTS` path of one or more hops to `path`.
`path` itself is excluded only when it does not lie on an import cycle;
when it does (e.g. `a.ts ↔ b.ts`), `path` appears in its own result. -/
theorem c1_recursive_dependents_semantics (g : GraphDB) (repoName filePath : String) :
    (findRecursiveDependents g repoName filePath).Nodup ∧
    ∀ d : NodeKey, d ∈ findRecursiveDependents g repoName filePath ↔
      ((repoName, filePath) ∈ g.nodes ∧ d ∈ g.nodes ∧
        ∃ s, (d, s) ∈ g.edges ∧ Reaches g.edges s (repoName, filePath)) := by
  constructor
  · unfold findRecursiveDependents
    split
    · exact (g.nodes.nodup_dedup).filter _
    · exact List.nodup_nil
  · intro d
    unfold findRecursiveDependents
    split
    · rename_i ht
      simp only [List.mem_filter, List.mem_dedup, List.any_eq_true, Bool.and_eq_true,
        decide_eq_true_eq]
      constructor
      · rintro ⟨hd, e, he, h1, h2⟩
        obtain ⟨e1, e2⟩ := e
        subst h1
        exact ⟨ht, hd, e2, he, reachesFuel_sound h2⟩
      · rintro ⟨_, hd, s, hds, hr⟩
        exact ⟨hd, (d, s), hds, rfl, reaches_iff_fuel.mp hr⟩
    · rename_i ht
      simp only [List.not_mem_nil, false_iff]
      rintro ⟨h1, _, _⟩
      exact ht h1

/-! ## Claim C8 -/

theorem applyMutation_idem (op : GraphOp) (s : Store) :
    applyMutation (applyMutation s op) op = applyMutation s op := by
  cases op with
  | upsertFile repo p name =>
    refine Store.ext' ?_ rfl rfl
    funext r q
    by_cases h : r = repo ∧ q = p <;> simp [applyMutation, h]
  | deleteFile repo p =>
    refine Store.ext' ?_ ?_ rfl
    · funext r q
      by_cases h : r = repo ∧ q = p <;> simp [applyMutation, h]
    · funext r f t
      by_cases h : r = repo ∧ (f = p ∨ t = p) <;> simp [applyMutation, h]
  | upsertEdge repo fp tp toName =>
    refine Store.ext' ?_ ?_ rfl
    · funext r q
      by_cases h1 : r = repo ∧ q = tp
      · simp [applyMutation, h1]
      · by_cases h2 : r = repo ∧ q = fp
        · by_cases h3 : fp = tp <;> simp [applyMutation, h1, h2, h3]
        · simp [applyMutation, h1, h2]
    · funext r f t
      by_cases h : r = repo ∧ f = fp ∧ t = tp <;> simp [applyMutation, h]
  | deleteOutgoingEdges repo p =>
    refine Store.ext' rfl ?_ rfl
    funext r f t
    by_cases h : r = repo ∧ f = p <;> simp [applyMutation, h]
  | setLastAnalyzedSha repo sha =>
    refine Store.ext' rfl rfl ?_
    funext r
    by_cases h : r = repo <;> simp [applyMutation, h]

/-- C8: every graph-store mutation is idempotent — applying it twice
yields the same store state as applying it once — and `upsertFile` on a
file only sets that file's `name`: the edges, the repository records and
every other file record are untouched. -/
theorem c8_mutations_idempotent (op : GraphOp) (s : Store) (repo p name : String) :
    applyMutation (applyMutation s op) op = applyMutation s op ∧
    (applyMutation s (.upsertFile repo p name)).edgeRel = s.edgeRel ∧
    (applyMutation s (.upsertFile repo p name)).repoSha = s.repoSha ∧
    (applyMutation s (.upsertFile repo p name)).fileRec repo p = some (some name) ∧
    ∀ r q, ¬(r = repo ∧ q = p) →
      (applyMutation s (.upsertFile repo p name)).fileRec r q = s.fileRec r q := by
  refine ⟨applyMutation_idem op s, rfl, rfl, by simp [applyMutation], ?_⟩
  intro r q h
  simp [applyMutation, h]

/-- The empty store. -/
def emptyStore : Store :=
  { fileRec := fun _ _ => none, edgeRel := fun _ _ _ => false, repoSha := fun _ => none }

/-- C8, witness: idempotence of a concrete `deleteFile` on the empty
store, and frame preservation of a concrete `upsertFile` at another key. -/
theorem c8_witness :
    applyMutation (applyMutation emptyStore (.deleteFile "acme/widget" "a.ts"))
        (.deleteFile "acme/widget" "a.ts")
      = applyMutation emptyStore (.deleteFile "acme/widget" "a.ts") ∧
    (applyMutation emptyStore (.upsertFile "acme/widget" "a.ts" "a.ts")).fileRec
        "acme/widget" "b.ts" = none := by
  obtain ⟨h1, _, _, _, h5⟩ :=
    c8_mutations_idempotent (.deleteFile "acme/widget" "a.ts") emptyStore
      "acme/widget" "a.ts" "a.ts"
  refine ⟨h1, (h5 "acme/widget" "b.ts" (by simp)).trans rfl⟩

/-! ## Claim C3 -/

/-- C3, counterexample: parsing keeps only the first character of the
status and the *second* tab-separated field, so a rename line
`R100\told.ts\tnew.ts` becomes `{status:"R", path:"old.ts"}` with the new
path discarded; the incremental update then produces no graph operation
at all for an `R` or `C` entry — neither a delete of the old path plus an
add of the new path, nor a modify — so such entries are silently ignored. -/
theorem c3_counterexample :
    getDiff "R100\told.ts\tnew.ts" = [⟨"R", "old.ts"⟩] ∧
    performIncrementalUpdate "acme/widget" (fun _ => []) [⟨"R", "old.ts"⟩] = [] ∧
    performIncrementalUpdate "acme/widget" (fun _ => []) [⟨"C", "copy.ts"⟩] = [] := by
  decide

/-- C3, amended: only the first character of the git status code survives
parsing (every produced entry's status has at most one character), and
diff entries whose status is not `A`, `M` or `D` — in particular all `R`
and `C` entries — contribute nothing to the incremental update: its
output is unchanged when they are removed from the diff. -/
theorem c3_first_char_and_rc_ignored (out : String) (e : DiffEntry)
    (he : e ∈ getDiff out) :
    e.status.length ≤ 1 ∧
    ∀ (repoName : String) (imports : String → List String) (diff : List DiffEntry),
      performIncrementalUpdate repoName imports diff =
        performIncrementalUpdate repoName imports
          (diff.filter (fun c =>
            decide (c.status = "A") || decide (c.status = "M")
              || decide (c.status = "D"))) := by
  constructor
  · obtain ⟨line, _, hp⟩ := List.mem_filterMap.mp he
    simp only [parseDiffLine] at hp
    split at hp
    · obtain rfl : (⟨_, _⟩ : DiffEntry) = e := Option.some_injective _ hp
      simp [jsCharAt0, List.length_take]
    · exact absurd hp (by simp)
  · intro repoName imports diff
    unfold performIncrementalUpdate
    have h1 :
        (diff.filter (fun c =>
            decide (c.status = "A") || decide (c.status = "M")
              || decide (c.status = "D"))).filter
          (fun c => decide (c.status = "D"))
        = diff.filter (fun c => decide (c.status = "D")) := by
      rw [List.filter_filter]
      refine List.filter_congr ?_
      intro c _
      by_cases h : c.status = "D" <;> simp [h]
    have h2 :
        (diff.filter (fun c =>
            decide (c.status = "A") || decide (c.status = "M")
              || decide (c.status = "D"))).filter
          (fun c => decide (c.status = "A") || decide (c.status = "M"))
        = diff.filter (fun c => decide (c.status = "A") || decide (c.status = "M")) := by
      rw [List.filter_filter]
      refine List.filter_congr ?_
      intro c _
      by_cases hA : c.status = "A"
      · simp [hA]
      · by_cases hM : c.status = "M" <;> simp [hA, hM]
    rw [h1, h2]

/-- C3, witness: the amended theorem at a concrete diff output and a
concrete diff containing an `R` entry. -/
theorem c3_witness :
    (⟨"A", "foo.ts"⟩ : DiffEntry).status.length ≤ 1 ∧
    performIncrementalUpdate "acme/widget" (fun _ => [])
        [⟨"R", "old.ts"⟩, ⟨"A", "foo.ts"⟩] =
      performIncrementalUpdate "acme/widget" (fun _ => [])
        ([⟨"R", "old.ts"⟩, ⟨"A", "foo.ts"⟩].filter (fun c =>
          decide (c.status = "A") || decide (c.status = "M")
            || decide (c.status = "D"))) := by
  have h := c3_first_char_and_rc_ignored "A\tfoo.ts" ⟨"A", "foo.ts"⟩ (by decide)
  exact ⟨h.1, h.2 "acme/widget" (fun _ => []) _⟩

/-! ## Claim C6 -/

/-- Operation issued by the deletion pass. -/
def isDeleteFileOp : GraphOp → Bool
  | .deleteFile _ _ => true
  | _ => false

/-- Operation issued by the mutation pass. -/
def isMutationPassOp : GraphOp → Bool
  | .upsertFile _ _ _ => true
  | .upsertEdge _ _ _ _ => true
  | .deleteOutgoingEdges _ _ => true
  | _ => false

theorem mutation_pass_no_delete (repoName : String) (imports : String → List String)
    (diff : List DiffEntry) (op : GraphOp)
    (h : op ∈ (diff.filter (fun c =>
        decide (c.status = "A") || decide (c.status = "M"))).flatMap
      (fun c =>
        if c.status = "A" then handleAddedFileOps repoName c.path imports
        else handleModifiedFileOps repoName c.path imports)) :
    isDeleteFileOp op = false := by
  obtain ⟨c, _, hc⟩ := List.mem_flatMap.mp h
  have hproc : ∀ p, op ∈ processFileOps repoName p imports → isDeleteFileOp op = false := by
    intro p hop
    rcases List.mem_cons.mp hop with rfl | hop'
    · rfl
    · obtain ⟨_, _, rfl⟩ := List.mem_map.mp hop'
      rfl
  split at hc
  · exact hproc _ hc
  · rcases List.mem_cons.mp hc with rfl | hop'
    · rfl
    · exact hproc _ hop'

/-- C6: in the operation sequence issued by one incremental update, every
`deleteFile` (the deletion pass, for the `D` diff entries) occurs
strictly before every upsert-type operation (`upsertFile`, `upsertEdge`,
`deleteOutgoingEdges` — the mutation pass for `A`/`M` entries): the
mutation pass only starts after the deletion pass has completed. -/
theorem c6_deletion_pass_precedes_mutation_pass (repoName : String)
    (imports : String → List String) (diff : List DiffEntry) (i j : Nat)
    (hi : i < (performIncrementalUpdate repoName imports diff).length)
    (hj : j < (performIncrementalUpdate repoName imports diff).length)
    (hdel : isDeleteFileOp ((performIncrementalUpdate repoName imports diff)[i]) = true)
    (hmut : isMutationPassOp ((performIncrementalUpdate repoName imports diff)[j]) = true) :
    i < j := by
  set A := (diff.filter (fun c => decide (c.status = "D"))).map
    (fun c => GraphOp.deleteFile repoName c.path) with hA
  set B := (diff.filter (fun c =>
      decide (c.status = "A") || decide (c.status = "M"))).flatMap
    (fun c =>
      if c.status = "A" then handleAddedFileOps repoName c.path imports
      else handleModifiedFileOps repoName c.path imports) with hB
  have hsplit : performIncrementalUpdate repoName imports diff = A ++ B := rfl
  have hiAB : i < (A ++ B).length := hsplit ▸ hi
  have hjAB : j < (A ++ B).length := hsplit ▸ hj
  have hdel2 : isDeleteFileOp ((A ++ B)[i]) = true := by
    rw [← List.getElem_of_eq hsplit hi]; exact hdel
  have hmut2 : isMutationPassOp ((A ++ B)[j]) = true := by
    rw [← List.getElem_of_eq hsplit hj]; exact hmut
  have hi' : i < A.length := by
    by_contra hnot
    push_neg at hnot
    have hiB' : i - A.length < B.length := by
      simp only [List.length_append] at hiAB
      omega
    have hiB : (A ++ B)[i] = B[i - A.length] := List.getElem_append_right hnot
    rw [hiB] at hdel2
    have hmem : B[i - A.length] ∈ B := List.getElem_mem _
    rw [mutation_pass_no_delete repoName imports diff _ (hB ▸ hmem)] at hdel2
    exact Bool.false_ne_true hdel2
  have hj' : A.length ≤ j := by
    by_contra hnot
    push_neg at hnot
    have hjA : (A ++ B)[j] = A[j] := List.getElem_append_left hnot
    rw [hjA] at hmut2
    have hmem : A[j] ∈ A := List.getElem_mem _
    obtain ⟨c, _, hc⟩ := List.mem_map.mp
      (show A[j] ∈ (diff.filter (fun c => decide (c.status = "D"))).map
          (fun c => GraphOp.deleteFile repoName c.path) from hmem)
    rw [← hc] at hmut2
    exact Bool.false_ne_true hmut2
  omega

/-- C6, witness: a concrete diff with one deletion and one addition; the
`deleteFile` at index 0 precedes the `upsertFile` at index 1. -/
theorem c6_witness : 0 < 1 := by
  refine c6_deletion_pass_precedes_mutation_pass "acme/widget" (fun _ => [])
    [⟨"D", "x.ts"⟩, ⟨"A", "y.ts"⟩] 0 1 (by decide) (by decide) (by decide) (by decide)

/-! ## Claim C7 -/

/-- C7: a delivered analysis-stream message whose `payload` field is
missing (or empty, hence falsy) or whose payload fails JSON parsing is
acknowledged immediately and yields no job: the consumer XACKs it —
removing it from the group's pending set, so it is not redelivered in
the group — and returns `null` instead of a job. -/
theorem c7_poison_message_dropped (jsonOk : String → Bool) (msg : StreamMessage)
    (h : msg.fields.lookup "payload" = none ∨
      ∃ p, msg.fields.lookup "payload" = some p ∧ (p = "" ∨ jsonOk p = false)) :
    getNextJob jsonOk msg = ([Effect.ack msg.id], none) := by
  unfold getNextJob
  rcases h with h | ⟨p, hp, hbad⟩
  · rw [h]
  · rw [hp]
    rcases hbad with rfl | hjson
    · simp
    · rcases eq_or_ne p "" with rfl | hne
      · simp
      · simp [hne, hjson]

/-- C7, witness: a concrete message with an unparseable payload is acked
and yields no job. -/
theorem c7_witness :
    getNextJob (fun _ => false) ⟨"1-0", [("payload", "not-json")]⟩
      = ([Effect.ack "1-0"], none) := by
  refine c7_poison_message_dropped (fun _ => false) ⟨"1-0", [("payload", "not-json")]⟩ ?_
  exact Or.inr ⟨"not-json", by decide, Or.inr rfl⟩

/-! ## Claim C9 -/

/-- C9: with the ingester secret configured, `POST /trigger` behaves as
specified: a missing or non-`Bearer` Authorization header → 401; a
Bearer token different from the secret → 403; a missing (or empty)
`repoUrl`, `sha` or `event` body field → 400; otherwise the payload —
extended with `receivedAt` — is published as one analysis job and the
response is 202 carrying the assigned job id; a publish failure → 500. -/
theorem c9_trigger_endpoint (secret now : String) (pub : Option String)
    (req : TriggerRequest) (hs : secret ≠ "") :
    (req.authHeader = none → ingesterRespond secret pub now req = (401, none)) ∧
    (∀ h, req.authHeader = some h → ¬ (bearerChars <+: h.data) →
      ingesterRespond secret pub now req = (401, none)) ∧
    (∀ h, req.authHeader = some h → bearerChars <+: h.data →
      String.mk (h.data.drop 7) ≠ secret →
      ingesterRespond secret pub now req = (403, none)) ∧
    (∀ h, req.authHeader = some h → bearerChars <+: h.data →
      String.mk (h.data.drop 7) = secret →
      (truthyField req.repoUrl = false ∨ truthyField req.sha = false ∨
        truthyField req.event = false) →
      ingesterRespond secret pub now req = (400, none)) ∧
    (∀ h msgId, req.authHeader = some h → bearerChars <+: h.data →
      String.mk (h.data.drop 7) = secret →
      truthyField req.repoUrl = true → truthyField req.sha = true →
      truthyField req.event = true → pub = some msgId →
      ingesterRespond secret pub now req =
        (202, some (msgId,
          { repoUrl := req.repoUrl.getD "", sha := req.sha.getD "",
            event := req.event.getD "",
            prNumber := match req.prNumber with
              | some n => if n = 0 then none else some n
              | none => none,
            receivedAt := now }))) ∧
    (∀ h, req.authHeader = some h → bearerChars <+: h.data →
      String.mk (h.data.drop 7) = secret →
      truthyField req.repoUrl = true → truthyField req.sha = true →
      truthyField req.event = true → pub = none →
      ingesterRespond secret pub now req = (500, none)) := by
  refine ⟨?_, ?_, ?_, ?_, ?_, ?_⟩
  · intro h
    simp [ingesterRespond, hs, h]
  · intro h hh hpref
    simp [ingesterRespond, hs, hh, hpref]
  · intro h hh hpref hne
    simp [ingesterRespond, hs, hh, hpref, hne]
  · intro h hh hpref heq hbad
    rcases hbad with hb | hb | hb <;>
      simp [ingesterRespond, hs, hh, hpref, heq, hb]
  · intro h msgId hh hpref heq h1 h2 h3 hpub
    simp [ingesterRespond, hs, hh, hpref, heq, h1, h2, h3, hpub]
  · intro h hh hpref heq h1 h2 h3 hpub
    simp [ingesterRespond, hs, hh, hpref, heq, h1, h2, h3, hpub]

/-- C9, witness: a missing header is rejected with 401, and a concrete
authorized, well-formed request is accepted with 202, the job id, and
the payload extended with `receivedAt`. -/
theorem c9_witness :
    ingesterRespond "s3cr3t" none "2026-01-01T00:00:00Z"
        ⟨none, some "https://github.com/acme/widget", some "X", some "push", none⟩
      = (401, none) ∧
    ingesterRespond "s3cr3t" (some "1-1") "2026-01-01T00:00:00Z"
        ⟨some "Bearer s3cr3t", some "https://github.com/acme/widget", some "X",
          some "push", none⟩
      = (202, some ("1-1",
          ⟨"https://github.com/acme/widget", "X", "push", none,
            "2026-01-01T00:00:00Z"⟩)) := by
  constructor
  · exact (c9_trigger_endpoint "s3cr3t" "2026-01-01T00:00:00Z" none
      ⟨none, some "https://github.com/acme/widget", some "X", some "push", none⟩
      (by decide)).1 rfl
  · exact (c9_trigger_endpoint "s3cr3t" "2026-01-01T00:00:00Z" (some "1-1")
      ⟨some "Bearer s3cr3t", some "https://github.com/acme/widget", some "X",
        some "push", none⟩
      (by decide)).2.2.2.2.1 "Bearer s3cr3t" "1-1" rfl (by decide) (by decide)
      (by decide) (by decide) (by decide) rfl

/-! ## Job handler trace lemmas -/

theorem countPublishes_append (a b : List Effect) :
    countPublishes (a ++ b) = countPublishes a + countPublishes b := by
  simp [countPublishes, List.filter_append]

theorem countPublishes_graphOps (ops : List GraphOp) :
    countPublishes (ops.map Effect.graphOp) = 0 := by
  induction ops with
  | nil => rfl
  | cons op t ih => simp [countPublishes, List.filter_cons]

theorem countPublishes_failureEffects (jobId repoUrl emsg : String) :
    countPublishes (failureEffects jobId repoUrl emsg) = 1 := rfl

theorem countPublishes_finishAnalysis (env : JobEnv)
    (jobId repoUrl repoName remoteSha : String) (changed : List String) :
    countPublishes (finishAnalysis env jobId repoUrl repoName remoteSha changed) = 1 := by
  unfold finishAnalysis
  split <;> rfl

/-- Every trace of `handleAnalysisJob` has one of four shapes: the
invalid-payload ack, a (possibly op-prefixed) failure, the no-change
publication, or the success publication after mutations and the sha
update. -/
theorem handleAnalysisJob_shape (env : JobEnv) (jobId : String)
    (payload : AnalysisJobPayload) :
    ((payload.repoUrl = none ∨ payload.repoUrl = some "") ∧
      handleAnalysisJob env jobId payload = [Effect.ack jobId]) ∨
    (∃ (u : String) (ops : List GraphOp) (emsg : String),
      payload.repoUrl = some u ∧ u ≠ "" ∧
      handleAnalysisJob env jobId payload
        = ops.map Effect.graphOp ++ failureEffects jobId u emsg) ∨
    (∃ (u rn sha : String), payload.repoUrl = some u ∧ u ≠ "" ∧
      handleAnalysisJob env jobId payload
        = [Effect.publish ⟨rn, sha, "no-change", [], none⟩]) ∨
    (∃ (u rn sha : String) (ops : List GraphOp) (changed : List String),
      payload.repoUrl = some u ∧ u ≠ "" ∧
      handleAnalysisJob env jobId payload
        = ops.map Effect.graphOp
          ++ [Effect.graphOp (.setLastAnalyzedSha rn sha),
              Effect.publish ⟨rn, sha, "success",
                blastRadius env.dependents changed, none⟩]) := by
  cases hru : payload.repoUrl with
  | none =>
    refine Or.inl ⟨Or.inl rfl, ?_⟩
    simp [handleAnalysisJob, hru]
  | some u =>
    by_cases hu : u = ""
    · subst hu
      refine Or.inl ⟨Or.inr rfl, ?_⟩
      simp [handleAnalysisJob, hru]
    · cases hpn : env.parsedPathname with
      | none =>
        refine Or.inr (Or.inl ⟨u, [], "invalid url", rfl, hu, ?_⟩)
        simp [handleAnalysisJob, hru, hu, hpn]
      | some pn =>
        by_cases hor : (jsSplit '/' (stripGitSuffix (jsSubstringFrom 1 pn))).getD 0 "" = ""
            ∨ (jsSplit '/' (stripGitSuffix (jsSubstringFrom 1 pn))).getD 1 "" = ""
        · refine Or.inr (Or.inl ⟨u, [],
            "Could not parse owner/repo from " ++ stripGitSuffix (jsSubstringFrom 1 pn),
            rfl, hu, ?_⟩)
          simp only [handleAnalysisJob, hru, hpn]
          rw [if_neg hu, if_pos hor]
          simp
        · cases hrs : env.remoteSha with
          | none =>
            refine Or.inr (Or.inl ⟨u, [], "Failed to get remote SHA from GitHub.",
              rfl, hu, ?_⟩)
            simp only [handleAnalysisJob, hru, hpn, hrs]
            rw [if_neg hu, if_neg hor]
            simp
          | some remoteSha =>
            cases hls : env.localSha with
            | error e =>
              refine Or.inr (Or.inl ⟨u, [], "failed to fetch last analyzed sha",
                rfl, hu, ?_⟩)
              simp only [handleAnalysisJob, hru, hpn, hrs, hls]
              rw [if_neg hu, if_neg hor]
              simp
            | ok localShaOpt =>
              by_cases hloc : localShaOpt.getD "" = ""
              · -- full analysis path
                have hnc : ¬(localShaOpt.getD "" ≠ "" ∧ localShaOpt = some remoteSha) := by
                  simp [hloc]
                cases hcl : env.cloneOk with
                | false =>
                  refine Or.inr (Or.inl ⟨u, [], "clone failed", rfl, hu, ?_⟩)
                  simp only [handleAnalysisJob, hru, hpn, hrs, hls]
                  rw [if_neg hu, if_neg hor, if_neg hnc, if_neg (by simp [hloc]),
                    if_pos (by simp [hcl])]
                  simp
                | true =>
                  cases hfo : env.fullOk with
                  | false =>
                    refine Or.inr (Or.inl ⟨u, [], "full analysis failed", rfl, hu, ?_⟩)
                    simp only [handleAnalysisJob, hru, hpn, hrs, hls]
                    rw [if_neg hu, if_neg hor, if_neg hnc, if_neg (by simp [hloc]),
                      if_neg (by simp [hcl]), if_pos (by simp [hfo])]
                    simp
                  | true =>
                    cases hup : env.updateShaOk with
                    | false =>
                      refine Or.inr (Or.inl ⟨u,
                        performFullAnalysis (stripGitSuffix (jsSubstringFrom 1 pn))
                          env.fullFiles env.imports,
                        "update sha failed", rfl, hu, ?_⟩)
                      simp only [handleAnalysisJob, hru, hpn, hrs, hls]
                      rw [if_neg hu, if_neg hor, if_neg hnc, if_neg (by simp [hloc]),
                        if_neg (by simp [hcl]), if_neg (by simp [hfo])]
                      simp [finishAnalysis, hup]
                    | true =>
                      refine Or.inr (Or.inr (Or.inr ⟨u,
                        stripGitSuffix (jsSubstringFrom 1 pn), remoteSha,
                        performFullAnalysis (stripGitSuffix (jsSubstringFrom 1 pn))
                          env.fullFiles env.imports,
                        [], rfl, hu, ?_⟩))
                      simp only [handleAnalysisJob, hru, hpn, hrs, hls]
                      rw [if_neg hu, if_neg hor, if_neg hnc, if_neg (by simp [hloc]),
                        if_neg (by simp [hcl]), if_neg (by simp [hfo])]
                      simp [finishAnalysis, hup]
              · by_cases heq : localShaOpt = some remoteSha
                · -- no-change path
                  refine Or.inr (Or.inr (Or.inl ⟨u,
                    stripGitSuffix (jsSubstringFrom 1 pn), remoteSha, rfl, hu, ?_⟩))
                  simp only [handleAnalysisJob, hru, hpn, hrs, hls]
                  rw [if_neg hu, if_neg hor, if_pos ⟨hloc, heq⟩]
                · -- incremental path
                  have hnc : ¬(localShaOpt.getD "" ≠ "" ∧ localShaOpt = some remoteSha) := by
                    simp [heq]
                  cases hra : env.repoAvailable with
                  | false =>
                    refine Or.inr (Or.inl ⟨u, [], "Repository not found locally.",
                      rfl, hu, ?_⟩)
                    simp only [handleAnalysisJob, hru, hpn, hrs, hls]
                    rw [if_neg hu, if_neg hor, if_neg hnc, if_pos (by simp [hloc]),
                      if_pos (by simp [hra])]
                    simp
                  | true =>
                    cases hdr : env.diffResult with
                    | error e =>
                      refine Or.inr (Or.inl ⟨u, [], "Failed to get git diff",
                        rfl, hu, ?_⟩)
                      simp only [handleAnalysisJob, hru, hpn, hrs, hls, hdr]
                      rw [if_neg hu, if_neg hor, if_neg hnc, if_pos (by simp [hloc]),
                        if_neg (by simp [hra])]
                      simp
                    | ok diff =>
                      by_cases hde : diff.isEmpty
                      · cases hup : env.updateShaOk with
                        | false =>
                          refine Or.inr (Or.inl ⟨u, [], "update sha failed",
                            rfl, hu, ?_⟩)
                          simp only [handleAnalysisJob, hru, hpn, hrs, hls, hdr]
                          rw [if_neg hu, if_neg hor, if_neg hnc, if_pos (by simp [hloc]),
                            if_neg (by simp [hra]), if_pos hde]
                          simp [finishAnalysis, hup]
                        | true =>
                          refine Or.inr (Or.inr (Or.inr ⟨u,
                            stripGitSuffix (jsSubstringFrom 1 pn), remoteSha, [], [],
                            rfl, hu, ?_⟩))
                          simp only [handleAnalysisJob, hru, hpn, hrs, hls, hdr]
                          rw [if_neg hu, if_neg hor, if_neg hnc, if_pos (by simp [hloc]),
                            if_neg (by simp [hra]), if_pos hde]
                          simp [finishAnalysis, hup]
                      · cases hck : env.checkoutOk with
                        | false =>
                          refine Or.inr (Or.inl ⟨u, [], "checkout failed", rfl, hu, ?_⟩)
                          simp only [handleAnalysisJob, hru, hpn, hrs, hls, hdr]
                          rw [if_neg hu, if_neg hor, if_neg hnc, if_pos (by simp [hloc]),
                            if_neg (by simp [hra]), if_neg hde, if_pos (by simp [hck])]
                          simp
                        | true =>
                          cases hup : env.updateShaOk with
                          | false =>
                            refine Or.inr (Or.inl ⟨u,
                              performIncrementalUpdate
                                (stripGitSuffix (jsSubstringFrom 1 pn)) env.imports diff,
                              "update sha failed", rfl, hu, ?_⟩)
                            simp only [handleAnalysisJob, hru, hpn, hrs, hls, hdr]
                            rw [if_neg hu, if_neg hor, if_neg hnc, if_pos (by simp [hloc]),
                              if_neg (by simp [hra]), if_neg hde, if_neg (by simp [hck])]
                            simp [finishAnalysis, hup]
                          | true =>
                            refine Or.inr (Or.inr (Or.inr ⟨u,
                              stripGitSuffix (jsSubstringFrom 1 pn), remoteSha,
                              performIncrementalUpdate
                                (stripGitSuffix (jsSubstringFrom 1 pn)) env.imports diff,
                              (diff.filter (fun f =>
                                decide (f.status = "A") || decide (f.status = "M"))).map
                                DiffEntry.path,
                              rfl, hu, ?_⟩))
                            simp only [handleAnalysisJob, hru, hpn, hrs, hls, hdr]
                            rw [if_neg hu, if_neg hor, if_neg hnc, if_pos (by simp [hloc]),
                              if_neg (by simp [hra]), if_neg hde, if_neg (by simp [hck])]
                            simp [finishAnalysis, hup]

/-! ## Blast-radius set lemmas -/

theorem mem_foldl_jsSetAdd : ∀ (l init : List String) (x : String),
    x ∈ l.foldl jsSetAdd init ↔ x ∈ init ∨ x ∈ l := by
  intro l
  induction l with
  | nil => intro init x; simp
  | cons a t ih =>
    intro init x
    rw [List.foldl_cons, ih]
    constructor
    · rintro (hx | hx)
      · unfold jsSetAdd at hx
        split at hx
        · exact Or.inl hx
        · rcases List.mem_append.mp hx with hx | hx
          · exact Or.inl hx
          · simp only [List.mem_singleton] at hx
            subst hx
            simp
      · simp [hx]
    · rintro (hx | hx)
      · refine Or.inl ?_
        unfold jsSetAdd
        split
        · exact hx
        · exact List.mem_append.mpr (Or.inl hx)
      · rcases List.mem_cons.mp hx with rfl | hx
        · refine Or.inl ?_
          unfold jsSetAdd
          split
          · assumption
          · simp
        · exact Or.inr hx

theorem nodup_foldl_jsSetAdd : ∀ (l init : List String), init.Nodup →
    (l.foldl jsSetAdd init).Nodup := by
  intro l
  induction l with
  | nil => intro init h; simpa using h
  | cons a t ih =>
    intro init h
    rw [List.foldl_cons]
    refine ih _ ?_
    unfold jsSetAdd
    split
    · exact h
    · rename_i hna
      simp [List.nodup_append, h, hna]

theorem mem_blastRadius (deps : String → Option (List GNode))
    (changed : List String) (f : String) :
    f ∈ blastRadius deps changed ↔
      f ∈ changed ∨ ∃ d ∈ changed, ∃ n ∈ (deps d).getD [], n.id = f := by
  unfold blastRadius
  by_cases hc : changed.isEmpty
  · obtain rfl : changed = [] := List.isEmpty_iff.mp hc
    simp
  · rw [if_neg hc, mem_foldl_jsSetAdd, mem_foldl_jsSetAdd]
    constructor
    · rintro ((hf | hf) | hf)
      · exact absurd hf (by simp)
      · exact Or.inl hf
      · obtain ⟨n, hn, rfl⟩ := List.mem_map.mp hf
        obtain ⟨l, hl, hnl⟩ := List.mem_flatten.mp hn
        obtain ⟨d, hd, rfl⟩ := List.mem_map.mp hl
        exact Or.inr ⟨d, hd, n, hnl, rfl⟩
    · rintro (hf | ⟨d, hd, n, hn, rfl⟩)
      · exact Or.inl (Or.inr hf)
      · refine Or.inr (List.mem_map.mpr ⟨n, ?_, rfl⟩)
        exact List.mem_flatten.mpr ⟨(deps d).getD [], List.mem_map.mpr ⟨d, hd, rfl⟩, hn⟩

theorem nodup_blastRadius (deps : String → Option (List GNode))
    (changed : List String) : (blastRadius deps changed).Nodup := by
  unfold blastRadius
  split
  · exact nodup_foldl_jsSetAdd changed [] List.nodup_nil
  · exact nodup_foldl_jsSetAdd _ _ (nodup_foldl_jsSetAdd changed [] List.nodup_nil)

/-! ## Claim C2 -/

/-- C2, counterexample: a job whose payload lacks `repoUrl` is
acknowledged and dropped with **zero** dispatch publications — the
claimed "exactly one dispatch message on every path, including invalid
payloads" fails on the missing-`repoUrl` path. -/
theorem c2_counterexample :
    handleAnalysisJob
        ⟨none, none, .ok none, false, .ok [], true, fun _ => [], true, true, [],
          true, fun _ => none⟩
        "1-0" ⟨none, "X", "push", none, "T0"⟩
      = [Effect.ack "1-0"] ∧
    countPublishes (handleAnalysisJob
        ⟨none, none, .ok none, false, .ok [], true, fun _ => [], true, true, [],
          true, fun _ => none⟩
        "1-0" ⟨none, "X", "push", none, "T0"⟩) = 0 := by
  constructor <;> rfl

/-- C2, amended: every execution path of `handleAnalysisJob` publishes
exactly one dispatch message (success, no-change or failure) — except the
path where the payload's `repoUrl` is missing or empty, which
acknowledges the job and publishes nothing. -/
theorem c2_one_dispatch_per_job (env : JobEnv) (jobId : String)
    (payload : AnalysisJobPayload) :
    countPublishes (handleAnalysisJob env jobId payload)
      = if payload.repoUrl = none ∨ payload.repoUrl = some "" then 0 else 1 := by
  rcases handleAnalysisJob_shape env jobId payload with
    ⟨hc, ht⟩ | ⟨u, ops, emsg, hru, hu, ht⟩ | ⟨u, rn, sha, hru, hu, ht⟩
      | ⟨u, rn, sha, ops, changed, hru, hu, ht⟩
  · rw [ht, if_pos hc]
    rfl
  · rw [ht, if_neg (by simp [hru, hu]), countPublishes_append,
      countPublishes_graphOps, countPublishes_failureEffects]
  · rw [ht, if_neg (by simp [hru, hu])]
    rfl
  · rw [ht, if_neg (by simp [hru, hu]), countPublishes_append, countPublishes_graphOps]
    rfl

/-! ## Claim C10 -/

/-- C10: whenever a job for a `repoUrl` containing a `/` publishes a
failure dispatch, that message carries `sha = "unknown"` and
`repoName` equal to just the last path segment of `repoUrl` (the
characters after its last `/`) with one trailing `.git` stripped — not
the `owner/name` form used by success and no-change dispatches. -/
theorem c10_failure_dispatch_fields (env : JobEnv) (jobId : String)
    (payload : AnalysisJobPayload) (u : String) (m : DispatchMsg)
    (hru : payload.repoUrl = some u) (hsl : jsIncludesChar '/' u = true)
    (hm : Effect.publish m ∈ handleAnalysisJob env jobId payload)
    (hst : m.status = "failure") :
    m.sha = "unknown" ∧ m.repoName = stripGitSuffix (afterLastChar '/' u) := by
  rcases handleAnalysisJob_shape env jobId payload with
    ⟨hc, ht⟩ | ⟨u', ops, emsg, hru', hu, ht⟩ | ⟨u', rn, sha, hru', hu, ht⟩
      | ⟨u', rn, sha, ops, changed, hru', hu, ht⟩
  · rw [ht] at hm
    simp at hm
  · rw [ht] at hm
    obtain rfl : u' = u := by
      rw [hru] at hru'
      exact (Option.some_injective _ hru').symm
    rcases List.mem_append.mp hm with hmem | hmem
    · obtain ⟨op, _, hop⟩ := List.mem_map.mp hmem
      exact absurd hop (by simp)
    · simp only [failureEffects, List.mem_cons, List.mem_singleton,
        List.not_mem_nil, or_false] at hmem
      rcases hmem with hmem | hmem
      · obtain rfl : m = ⟨failRepoName u', "unknown", "failure", [], some emsg⟩ := by
          injection hmem
        refine ⟨rfl, ?_⟩
        simp [failRepoName, hsl]
      · exact absurd hmem (by simp)
  · rw [ht] at hm
    simp only [List.mem_singleton] at hm
    obtain rfl : m = ⟨rn, sha, "no-change", [], none⟩ := by injection hm
    exact absurd (show "no-change" = "failure" from hst) (by decide)
  · rw [ht] at hm
    rcases List.mem_append.mp hm with hmem | hmem
    · obtain ⟨op, _, hop⟩ := List.mem_map.mp hmem
      exact absurd hop (by simp)
    · rcases List.mem_cons.mp hmem with hmem1 | hmem1
      · exact absurd hmem1 (by simp)
      · have hmem2 := List.mem_singleton.mp hmem1
        obtain rfl : m = ⟨rn, sha, "success", blastRadius env.dependents changed, none⟩ := by
          injection hmem2
        exact absurd (show "success" = "failure" from hst) (by decide)

/-- C10, witness: a job for `https://github.com/acme/widget` that fails
because the remote SHA lookup fails publishes a failure message with
`sha = "unknown"` and `repoName = "widget"`. -/
theorem c10_witness :
    (⟨"widget", "unknown", "failure", [],
        some "Failed to get remote SHA from GitHub."⟩ : DispatchMsg).sha = "unknown" ∧
    (⟨"widget", "unknown", "failure", [],
        some "Failed to get remote SHA from GitHub."⟩ : DispatchMsg).repoName
      = stripGitSuffix (afterLastChar '/' "https://github.com/acme/widget") := by
  refine c10_failure_dispatch_fields
    ⟨some "/acme/widget", none, .ok none, true, .ok [], true, fun _ => [], true, true,
      [], true, fun _ => none⟩
    "1-0" ⟨some "https://github.com/acme/widget", "X", "push", none, "T0"⟩
    "https://github.com/acme/widget"
    ⟨"widget", "unknown", "failure", [], some "Failed to get remote SHA from GitHub."⟩
    rfl (by decide) (by decide) rfl

/-! ## Claim C5 -/

/-- C5: when the stored `lastAnalyzedSha` is present and equals the
remote SHA, the job publishes exactly `{status:"no-change",
affectedFiles:[]}` for the repo and makes no graph-store mutation call:
the trace consists of that single publication, its mutation list is
empty, and folding it over any store state leaves the store — its graph
and its `lastAnalyzedSha` — unchanged. -/
theorem c5_no_change_frame (env : JobEnv) (jobId : String)
    (payload : AnalysisJobPayload) (u pn remoteSha : String)
    (hru : payload.repoUrl = some u) (hu : u ≠ "")
    (hpn : env.parsedPathname = some pn)
    (hor : ¬((jsSplit '/' (stripGitSuffix (jsSubstringFrom 1 pn))).getD 0 "" = ""
      ∨ (jsSplit '/' (stripGitSuffix (jsSubstringFrom 1 pn))).getD 1 "" = ""))
    (hrs : env.remoteSha = some remoteSha)
    (hls : env.localSha = .ok (some remoteSha))
    (hsha : remoteSha ≠ "") :
    handleAnalysisJob env jobId payload
      = [Effect.publish ⟨stripGitSuffix (jsSubstringFrom 1 pn), remoteSha,
          "no-change", [], none⟩] ∧
    graphOpsOf (handleAnalysisJob env jobId payload) = [] ∧
    ∀ st : Store, applyOps st (graphOpsOf (handleAnalysisJob env jobId payload)) = st := by
  have ht : handleAnalysisJob env jobId payload
      = [Effect.publish ⟨stripGitSuffix (jsSubstringFrom 1 pn), remoteSha,
          "no-change", [], none⟩] := by
    simp only [handleAnalysisJob, hru, hpn, hrs, hls]
    rw [if_neg hu, if_neg hor, if_pos (by simp [hsha])]
  refine ⟨ht, ?_, ?_⟩
  · rw [ht]
    rfl
  · intro st
    rw [ht]
    rfl

/-- C5, witness: a concrete up-to-date job publishes only the no-change
message and leaves the empty store unchanged. -/
theorem c5_witness :
    handleAnalysisJob
        ⟨some "/acme/widget", some "X", .ok (some "X"), true, .ok [], true,
          fun _ => [], true, true, [], true, fun _ => none⟩
        "1-0" ⟨some "https://github.com/acme/widget", "X", "push", none, "T0"⟩
      = [Effect.publish ⟨"acme/widget", "X", "no-change", [], none⟩] ∧
    applyOps emptyStore (graphOpsOf (handleAnalysisJob
        ⟨some "/acme/widget", some "X", .ok (some "X"), true, .ok [], true,
          fun _ => [], true, true, [], true, fun _ => none⟩
        "1-0" ⟨some "https://github.com/acme/widget", "X", "push", none, "T0"⟩))
      = emptyStore := by
  have h := c5_no_change_frame
    ⟨some "/acme/widget", some "X", .ok (some "X"), true, .ok [], true,
      fun _ => [], true, true, [], true, fun _ => none⟩
    "1-0" ⟨some "https://github.com/acme/widget", "X", "push", none, "T0"⟩
    "https://github.com/acme/widget" "/acme/widget" "X"
    rfl (by decide) rfl (by decide) rfl rfl (by decide)
  exact ⟨h.1.trans (by decide), h.2.2 emptyStore⟩

/-! ## Claim C4 -/

/-- C4: on a successful incremental job, the published message has status
`"success"` and its `affectedFiles` is the deduplicated union of the
directly changed (`A`/`M`) paths with the ids returned by the
recursive-dependents query for each of them, a query failure contributing
the empty set (so the changed file still contributes itself) without
affecting the success status. -/
theorem c4_affected_set (env : JobEnv) (jobId : String)
    (payload : AnalysisJobPayload) (u pn remoteSha localSha : String)
    (diff : List DiffEntry)
    (hru : payload.repoUrl = some u) (hu : u ≠ "")
    (hpn : env.parsedPathname = some pn)
    (hor : ¬((jsSplit '/' (stripGitSuffix (jsSubstringFrom 1 pn))).getD 0 "" = ""
      ∨ (jsSplit '/' (stripGitSuffix (jsSubstringFrom 1 pn))).getD 1 "" = ""))
    (hrs : env.remoteSha = some remoteSha)
    (hls : env.localSha = .ok (some localSha))
    (hloc : localSha ≠ "") (hne : localSha ≠ remoteSha)
    (hra : env.repoAvailable = true)
    (hdr : env.diffResult = .ok diff)
    (hde : diff.isEmpty = false)
    (hck : env.checkoutOk = true)
    (hup : env.updateShaOk = true)
    (_hD : (diff.filter (fun f =>
        decide (f.status = "A") || decide (f.status = "M"))).map DiffEntry.path ≠ []) :
    handleAnalysisJob env jobId payload
      = (performIncrementalUpdate (stripGitSuffix (jsSubstringFrom 1 pn))
            env.imports diff).map Effect.graphOp
        ++ [Effect.graphOp (.setLastAnalyzedSha
              (stripGitSuffix (jsSubstringFrom 1 pn)) remoteSha),
            Effect.publish ⟨stripGitSuffix (jsSubstringFrom 1 pn), remoteSha, "success",
              blastRadius env.dependents ((diff.filter (fun f =>
                decide (f.status = "A") || decide (f.status = "M"))).map DiffEntry.path),
              none⟩] ∧
    (blastRadius env.dependents ((diff.filter (fun f =>
        decide (f.status = "A") || decide (f.status = "M"))).map DiffEntry.path)).Nodup ∧
    ∀ f, f ∈ blastRadius env.dependents ((diff.filter (fun f =>
          decide (f.status = "A") || decide (f.status = "M"))).map DiffEntry.path) ↔
      (f ∈ (diff.filter (fun f =>
          decide (f.status = "A") || decide (f.status = "M"))).map DiffEntry.path ∨
        ∃ d ∈ (diff.filter (fun f =>
          decide (f.status = "A") || decide (f.status = "M"))).map DiffEntry.path,
          ∃ n ∈ (env.dependents d).getD [], n.id = f) := by
  refine ⟨?_, nodup_blastRadius _ _, fun f => mem_blastRadius _ _ f⟩
  have hnc : ¬((some localSha).getD "" ≠ "" ∧ some localSha = some remoteSha) := by
    simp [hne]
  simp only [handleAnalysisJob, hru, hpn, hrs, hls, hdr]
  rw [if_neg hu, if_neg hor, if_neg hnc, if_pos (by simp [hloc]),
    if_neg (by simp [hra]), if_neg (by simp [hde]), if_neg (by simp [hck])]
  simp [finishAnalysis, hup]

/-- The environment of the C4 witness job: one modified file `a.ts` whose
recursive-dependents query returns `c.ts`. -/
def c4Env : JobEnv :=
  ⟨some "/acme/widget", some "Y", .ok (some "X"), true, .ok [⟨"M", "a.ts"⟩], true,
    fun _ => ["b.ts"], true, true, [], true,
    fun p => if p = "a.ts" then some [⟨"c.ts", "c.ts"⟩] else none⟩

/-- C4, witness: the affected set of the concrete job is duplicate-free
and contains `c.ts` exactly because it is a recursive dependent of the
changed file `a.ts`. -/
theorem c4_witness :
    (blastRadius c4Env.dependents ((([⟨"M", "a.ts"⟩] : List DiffEntry).filter (fun f =>
        decide (f.status = "A") || decide (f.status = "M"))).map DiffEntry.path)).Nodup ∧
    ("c.ts" ∈ blastRadius c4Env.dependents ((([⟨"M", "a.ts"⟩] : List DiffEntry).filter
        (fun f => decide (f.status = "A") || decide (f.status = "M"))).map
        DiffEntry.path) ↔
      ("c.ts" ∈ (([⟨"M", "a.ts"⟩] : List DiffEntry).filter (fun f =>
          decide (f.status = "A") || decide (f.status = "M"))).map DiffEntry.path ∨
        ∃ d ∈ (([⟨"M", "a.ts"⟩] : List DiffEntry).filter (fun f =>
          decide (f.status = "A") || decide (f.status = "M"))).map DiffEntry.path,
          ∃ n ∈ (c4Env.dependents d).getD [], n.id = "c.ts")) := by
  have h := c4_affected_set c4Env "1-0"
    ⟨some "https://github.com/acme/widget", "Y", "push", none, "T0"⟩
    "https://github.com/acme/widget" "/acme/widget" "Y" "X" [⟨"M", "a.ts"⟩]
    rfl (by decide) rfl (by decide) rfl rfl (by decide) (by decide) rfl rfl
    (by decide) rfl rfl (by decide)
  exact ⟨h.2.1, h.2.2 "c.ts"⟩
